import Mathlib

/-!
Verification of the AstraDB destination connector
(`src/unstructured/ingest/v2/processes/connectors/astradb.py`).

The connector has two components: an upload stager whose `conform_dict`
reshapes each element dict into the AstraDB record shape, and an uploader
that provisions a collection and writes staged records in batches.  JSON
values are embedded as an inductive type; Python dicts (as produced by
`json.load`) are embedded as association lists in insertion order; numeric
literals are kept uninterpreted since the connector never computes on them.
-/

/-- A JSON value.  Numeric literals are carried as their source text: the
connector moves them around but never interprets them. -/
inductive JValue where
  | null : JValue
  | bool : Bool → JValue
  | num : String → JValue
  | str : String → JValue
  | arr : List JValue → JValue
  | obj : List (String × JValue) → JValue

/-- A Python dict as an association list in insertion order (keys are
unique in any dict produced by `json.load`). -/
abbrev Dict := List (String × JValue)

/-- The keys of a dict, in order. -/
def dictKeys (d : Dict) : List String := d.map Prod.fst

/-- Lookup of a key in a dict (`d[k]` / the value part of `d.pop(k, ...)`). -/
def dictGet (d : Dict) (k : String) : Option JValue :=
  (d.find? (fun p => p.1 == k)).map (·.2)

/-- Removal of a key from a dict (the mutation part of `d.pop(k, ...)`). -/
def dictRemove (d : Dict) (k : String) : Dict :=
  d.filter (fun p => p.1 != k)

/-- State-passing embedding of `AstraDBUploadStager.conform_dict`.  The
Python body is
`return \x7b"$vector": element_dict.pop("embeddings", None),
"content": element_dict.pop("text", None), "metadata": element_dict\x7d`;
the two `pop` calls mutate `element_dict` in place, and the mutated dict
itself becomes the `metadata` value.  The first component is the returned
record, the second is the post-call state of the caller's dict. -/
def conformDictS (element_dict : Dict) : Dict × Dict :=
  let emb := dictGet element_dict "embeddings"
  let d1 := dictRemove element_dict "embeddings"
  let txt := dictGet d1 "text"
  let d2 := dictRemove d1 "text"
  ([("$vector", emb.getD JValue.null),
    ("content", txt.getD JValue.null),
    ("metadata", JValue.obj d2)], d2)

/-- The record returned by `conform_dict`. -/
def conform_dict (element_dict : Dict) : Dict := (conformDictS element_dict).1

/-- The state of the caller's `element_dict` after `conform_dict` returns
(the dict was mutated by the two `pop` calls). -/
def conformDictPost (element_dict : Dict) : Dict := (conformDictS element_dict).2

/-- The element-wise transform of `AstraDBUploadStager.run`: the loop
`for element in elements_contents: conformed_elements.append(
self.conform_dict(element_dict=element))` applied to the parsed input
array.  File parsing and serialization are handled outside this core. -/
def stagerRunElements (elements_contents : List Dict) : List Dict :=
  elements_contents.map conform_dict

/- Helper lemmas about the staged shape. -/

theorem dictGet_eq_none_of_not_mem (d : Dict) (k : String)
    (h : k ∉ dictKeys d) : dictGet d k = none := by
  unfold dictGet
  rw [List.find?_eq_none.mpr]
  · rfl
  · intro p hp hbeq
    exact h (List.mem_map.mpr ⟨p, hp, by simpa using hbeq⟩)

theorem not_mem_keys_dictRemove (d : Dict) (k : String) :
    k ∉ dictKeys (dictRemove d k) := by
  unfold dictKeys dictRemove
  intro hmem
  rcases List.mem_map.mp hmem with ⟨p, hp, hk⟩
  rcases List.mem_filter.mp hp with ⟨_, hne⟩
  subst hk
  simp at hne

theorem mem_keys_dictRemove_of_ne (d : Dict) (k k' : String) (hne : k ≠ k') :
    k ∈ dictKeys (dictRemove d k') ↔ k ∈ dictKeys d := by
  unfold dictKeys dictRemove
  constructor
  · intro hmem
    rcases List.mem_map.mp hmem with ⟨p, hp, hk⟩
    exact List.mem_map.mpr ⟨p, (List.mem_filter.mp hp).1, hk⟩
  · intro hmem
    rcases List.mem_map.mp hmem with ⟨p, hp, hk⟩
    refine List.mem_map.mpr ⟨p, List.mem_filter.mpr ⟨hp, ?_⟩, hk⟩
    subst hk
    simpa using hne

theorem conform_dict_keys (d : Dict) :
    dictKeys (conform_dict d) = ["$vector", "content", "metadata"] := rfl

theorem conformDictPost_no_extraction_keys (d : Dict) :
    "embeddings" ∉ dictKeys (conformDictPost d) ∧
      "text" ∉ dictKeys (conformDictPost d) := by
  constructor
  · intro hmem
    have h1 : "embeddings" ∈ dictKeys (dictRemove d "embeddings") := by
      have := (mem_keys_dictRemove_of_ne (dictRemove d "embeddings")
        "embeddings" "text" (by decide)).mp hmem
      exact this
    exact not_mem_keys_dictRemove d "embeddings" h1
  · exact not_mem_keys_dictRemove (dictRemove d "embeddings") "text"

theorem conform_dict_metadata (d : Dict) :
    dictGet (conform_dict d) "metadata" = some (JValue.obj (conformDictPost d)) := rfl

theorem conform_dict_vector (d : Dict) :
    dictGet (conform_dict d) "$vector" =
      some ((dictGet d "embeddings").getD JValue.null) := rfl

theorem conform_dict_content (d : Dict) :
    dictGet (conform_dict d) "content" =
      some ((dictGet (dictRemove d "embeddings") "text").getD JValue.null) := rfl

/-- C1: staging preserves length and order: the output list has the same
length as the input and its i-th record is `conform_dict` of the i-th
input record (no filtering, no merging). -/
theorem stager_run_preserves_length_and_order (elements_contents : List Dict) :
    (stagerRunElements elements_contents).length = elements_contents.length ∧
      ∀ i : Nat, (stagerRunElements elements_contents)[i]? =
        (elements_contents[i]?).map conform_dict := by
  refine ⟨List.length_map _ _, fun i => ?_⟩
  simp [stagerRunElements]

/-- C2 counterexample: the staged record does not have a key literally
named `vector`; the vector field's key is `$vector`. -/
theorem staged_record_has_no_vector_key :
    dictKeys (conform_dict [("text", JValue.str "hi")]) ≠
        ["vector", "content", "metadata"] ∧
      "vector" ∉ dictKeys (conform_dict [("text", JValue.str "hi")]) ∧
      "$vector" ∈ dictKeys (conform_dict [("text", JValue.str "hi")]) := by
  refine ⟨by decide, by decide, by decide⟩

/-- C2 (amended): every staged record has exactly the three keys
`$vector`, `content`, `metadata`, and its metadata mapping contains
neither of the extraction keys `embeddings` and `text`. -/
theorem staged_record_shape (d : Dict) :
    dictKeys (conform_dict d) = ["$vector", "content", "metadata"] ∧
      dictGet (conform_dict d) "metadata" = some (JValue.obj (conformDictPost d)) ∧
      "embeddings" ∉ dictKeys (conformDictPost d) ∧
      "text" ∉ dictKeys (conformDictPost d) := by
  refine ⟨conform_dict_keys d, conform_dict_metadata d,
    (conformDictPost_no_extraction_keys d).1,
    (conformDictPost_no_extraction_keys d).2⟩

/-- C3: when the `embeddings` key (resp. `text` key) is absent from the
element, the staged `$vector` (resp. `content`) field is null, and
`conform_dict` is a total function (no error is raised). -/
theorem conform_dict_missing_keys_give_null (d : Dict) :
    ("embeddings" ∉ dictKeys d →
        dictGet (conform_dict d) "$vector" = some JValue.null) ∧
      ("text" ∉ dictKeys d →
        dictGet (conform_dict d) "content" = some JValue.null) := by
  constructor
  · intro h
    have hget : dictGet d "embeddings" = none := dictGet_eq_none_of_not_mem d "embeddings" h
    rw [conform_dict_vector, hget]
    rfl
  · intro h
    have h1 : "text" ∉ dictKeys (dictRemove d "embeddings") := by
      intro hmem
      exact h ((mem_keys_dictRemove_of_ne d "text" "embeddings" (by decide)).mp hmem)
    have hget : dictGet (dictRemove d "embeddings") "text" = none :=
      dictGet_eq_none_of_not_mem _ "text" h1
    rw [conform_dict_content, hget]
    rfl

/-- C3 witness: on `[("source", "a")]`, which has neither extraction key,
both staged fields are null. -/
theorem conform_dict_missing_keys_give_null_witness :
    dictGet (conform_dict [("source", JValue.str "a")]) "$vector" = some JValue.null ∧
      dictGet (conform_dict [("source", JValue.str "a")]) "content" = some JValue.null :=
  ⟨(conform_dict_missing_keys_give_null [("source", JValue.str "a")]).1 (by decide),
   (conform_dict_missing_keys_give_null [("source", JValue.str "a")]).2 (by decide)⟩

/-- C8 counterexample: on the spec's example input the staged record's
vector key is `$vector`, not `vector`, so the claimed output
`[("vector", ...), ...]` is not produced. -/
theorem example_staging_vector_key_differs :
    conform_dict [("text", JValue.str "hi"),
        ("embeddings", JValue.arr [JValue.num "0.1", JValue.num "0.2"]),
        ("source", JValue.str "a")] ≠
      [("vector", JValue.arr [JValue.num "0.1", JValue.num "0.2"]),
        ("content", JValue.str "hi"),
        ("metadata", JValue.obj [("source", JValue.str "a")])] ∧
      dictGet (conform_dict [("text", JValue.str "hi"),
        ("embeddings", JValue.arr [JValue.num "0.1", JValue.num "0.2"]),
        ("source", JValue.str "a")]) "vector" = none := by
  refine ⟨fun h => ?_, rfl⟩
  have h2 := congrArg dictKeys h
  rw [conform_dict_keys] at h2
  exact absurd h2 (by decide)

/-- C8 (amended): the spec's example input stages to the record with
keys `$vector`, `content`, `metadata` and the expected values. -/
theorem example_staging_end_to_end :
    stagerRunElements [[("text", JValue.str "hi"),
        ("embeddings", JValue.arr [JValue.num "0.1", JValue.num "0.2"]),
        ("source", JValue.str "a")]] =
      [[("$vector", JValue.arr [JValue.num "0.1", JValue.num "0.2"]),
        ("content", JValue.str "hi"),
        ("metadata", JValue.obj [("source", JValue.str "a")])]] := rfl

/-- C10: `conform_dict` mutates its argument in place: after the call the
caller's dict has lost the `embeddings` and `text` keys and is exactly the
metadata mapping of the returned record; on an input that has one of
those keys the dict really does change. -/
theorem conform_dict_mutates_input (d : Dict) :
    "embeddings" ∉ dictKeys (conformDictPost d) ∧
      "text" ∉ dictKeys (conformDictPost d) ∧
      dictGet (conform_dict d) "metadata" = some (JValue.obj (conformDictPost d)) ∧
      conformDictPost [("text", JValue.str "hi")] ≠ [("text", JValue.str "hi")] := by
  refine ⟨(conformDictPost_no_extraction_keys d).1,
    (conformDictPost_no_extraction_keys d).2,
    conform_dict_metadata d, fun h => ?_⟩
  have h2 := congrArg dictKeys h
  exact absurd h2 (by decide)

/-- Modelled from the spec: `batch_generator` is imported from
`unstructured.ingest.utils.data_prep`, whose source is not under `src/`.
The spec describes it as "a simple chunking function over an ordered
sequence" that partitions the full sequence into consecutive,
non-overlapping chunks of size `batch_size`, the final chunk possibly
smaller, in sequence order.  `chunkFuel` is the fuel-indexed worker;
`xs.length` units of fuel always suffice when the size is positive. -/
def chunkFuel (fuel n : Nat) (xs : List α) : List (List α) :=
  match fuel, xs with
  | _, [] => []
  | 0, _ :: _ => []
  | f + 1, x :: rest => ((x :: rest).take n) :: chunkFuel f n ((x :: rest).drop n)

/-- Modelled from the spec: the chunking function itself (see `chunkFuel`). -/
def batch_generator (xs : List α) (n : Nat) : List (List α) :=
  chunkFuel xs.length n xs

theorem chunkFuel_flatten (n : Nat) (hn : 0 < n) (fuel : Nat) :
    ∀ xs : List α, xs.length ≤ fuel → (chunkFuel fuel n xs).flatten = xs := by
  induction fuel with
  | zero =>
    intro xs h
    have hnil : xs = [] := List.eq_nil_of_length_eq_zero (Nat.le_zero.mp h)
    subst hnil
    simp [chunkFuel]
  | succ f ih =>
    intro xs h
    cases xs with
    | nil => simp [chunkFuel]
    | cons x rest =>
      simp only [chunkFuel, List.flatten_cons]
      rw [ih ((x :: rest).drop n) ?hlen]
      · exact List.take_append_drop n (x :: rest)
      case hlen =>
        simp only [List.length_drop, List.length_cons]
        simp only [List.length_cons] at h
        omega

theorem chunkFuel_sizes (n : Nat) (hn : 0 < n) (fuel : Nat) :
    ∀ xs : List α, ∀ c ∈ chunkFuel fuel n xs, c.length ≤ n ∧ c ≠ [] := by
  induction fuel with
  | zero =>
    intro xs c hc
    cases xs <;> simp [chunkFuel] at hc
  | succ f ih =>
    intro xs c hc
    cases xs with
    | nil => simp [chunkFuel] at hc
    | cons x rest =>
      simp only [chunkFuel, List.mem_cons] at hc
      rcases hc with rfl | hc
      · refine ⟨by simp [List.length_take], ?_⟩
        cases n with
        | zero => exact absurd hn (by simp)
        | succ m => simp
      · exact ih _ c hc

theorem chunkFuel_ne_nil_of_arg_ne_nil (n fuel : Nat) (xs : List α)
    (hfuel : 0 < fuel) (hxs : xs ≠ []) : chunkFuel fuel n xs ≠ [] := by
  cases fuel with
  | zero => exact absurd hfuel (by simp)
  | succ f =>
    cases xs with
    | nil => exact absurd rfl hxs
    | cons x rest => simp [chunkFuel]

theorem chunkFuel_dropLast (n : Nat) (hn : 0 < n) (fuel : Nat) :
    ∀ xs : List α, xs.length ≤ fuel →
      ∀ c ∈ (chunkFuel fuel n xs).dropLast, c.length = n := by
  induction fuel with
  | zero =>
    intro xs h c hc
    have hnil : xs = [] := List.eq_nil_of_length_eq_zero (Nat.le_zero.mp h)
    subst hnil
    simp [chunkFuel] at hc
  | succ f ih =>
    intro xs h c hc
    cases xs with
    | nil => simp [chunkFuel] at hc
    | cons x rest =>
      have hunfold : chunkFuel (f + 1) n (x :: rest) =
          ((x :: rest).take n) :: chunkFuel f n ((x :: rest).drop n) := rfl
      rw [hunfold] at hc
      cases hr : chunkFuel f n ((x :: rest).drop n) with
      | nil => rw [hr] at hc; simp at hc
      | cons b bs =>
        rw [hr, List.dropLast_cons₂, List.mem_cons] at hc
        have hdropne : (x :: rest).drop n ≠ [] := by
          intro hd
          rw [hd] at hr
          cases f <;> simp [chunkFuel] at hr
        have hlt : n < (x :: rest).length := by
          by_contra hge
          push_neg at hge
          exact hdropne (List.drop_eq_nil_of_le hge)
        rcases hc with rfl | hc2
        · simp only [List.length_take]
          exact Nat.min_eq_left (Nat.le_of_lt hlt)
        · have hlen : ((x :: rest).drop n).length ≤ f := by
            simp only [List.length_drop, List.length_cons]
            simp only [List.length_cons] at h
            omega
          have := ih ((x :: rest).drop n) hlen c
          rw [hr] at this
          exact this hc2

theorem batch_generator_flatten (xs : List α) (n : Nat) (hn : 0 < n) :
    (batch_generator xs n).flatten = xs :=
  chunkFuel_flatten n hn xs.length xs (Nat.le_refl _)

theorem batch_generator_sizes (xs : List α) (n : Nat) (hn : 0 < n) :
    ∀ c ∈ batch_generator xs n, c.length ≤ n ∧ c ≠ [] :=
  chunkFuel_sizes n hn xs.length xs

theorem batch_generator_dropLast (xs : List α) (n : Nat) (hn : 0 < n) :
    ∀ c ∈ (batch_generator xs n).dropLast, c.length = n :=
  chunkFuel_dropLast n hn xs.length xs (Nat.le_refl _)

/-- The insert-many payloads issued by `AstraDBUploader.run`: all staged
files are parsed and concatenated into `elements_dict`, then the loop
`for chunk in batch_generator(elements_dict, astra_batch_size):
collection.insert_many(chunk)` submits one chunk per call, in order. -/
def uploaderInsertCalls (contents : List (List Dict)) (batch_size : Nat) : List (List Dict) :=
  batch_generator contents.flatten batch_size

/-- C4: the uploader partitions the concatenated staged records into
consecutive, non-overlapping chunks of size `batch_size` (the final chunk
may be smaller), submitted in sequence order; concatenating the issued
chunks gives back the input sequence, every chunk except possibly the
last has length exactly `batch_size`, every chunk is non-empty and at
most `batch_size` long, and with `batch_size = 20` and 45 records there
are exactly 3 calls of sizes 20, 20, 5. -/
theorem uploader_batches (contents : List (List Dict)) (b : Nat) (hb : 0 < b) :
    (uploaderInsertCalls contents b).flatten = contents.flatten ∧
      (∀ c ∈ (uploaderInsertCalls contents b).dropLast, c.length = b) ∧
      (∀ c ∈ uploaderInsertCalls contents b, c.length ≤ b ∧ c ≠ []) ∧
      (uploaderInsertCalls [List.replicate 45 ([] : Dict)] 20).map List.length =
        [20, 20, 5] := by
  refine ⟨batch_generator_flatten contents.flatten b hb,
    batch_generator_dropLast contents.flatten b hb,
    batch_generator_sizes contents.flatten b hb, by decide⟩

/-- C4 witness: 45 staged records with batch size 20 give insert-many
calls of sizes 20, 20, 5, and their concatenation is the input. -/
theorem uploader_batches_witness :
    (uploaderInsertCalls [List.replicate 45 ([] : Dict)] 20).map List.length =
      [20, 20, 5] :=
  (uploader_batches [List.replicate 45 ([] : Dict)] 20 (by decide)).2.2.2

/-- Embedding of the `AstraDBUploaderConfig` dataclass.  The Python field
`namespace` is a Lean keyword and is embedded as `nspace`.  Python `int`
fields are embedded as `Int` (they are unbounded and unchecked). -/
structure AstraDBUploaderConfig where
  collection_name : String
  embedding_dimension : Int
  nspace : Option String
  requested_indexing_policy : Option Dict
  batch_size : Int

/-- Construction of an `AstraDBUploaderConfig`.  The source dataclass's
generated constructor only assigns the fields and performs no validation;
the `Except` wrapper makes rejection at construction time expressible,
and the source never rejects. -/
def mkAstraDBUploaderConfig (collection_name : String) (embedding_dimension : Int)
    (nspace : Option String) (requested_indexing_policy : Option Dict)
    (batch_size : Int) : Except String AstraDBUploaderConfig :=
  Except.ok ⟨collection_name, embedding_dimension, nspace,
    requested_indexing_policy, batch_size⟩

/-- C6 counterexample: a config with embedding dimension -1 and batch
size 0 (both non-positive) is accepted at construction time, not
rejected. -/
theorem uploader_config_accepts_nonpositive :
    mkAstraDBUploaderConfig "c" (-1) none none 0 =
        Except.ok ⟨"c", -1, none, none, 0⟩ ∧
      (-1 : Int) ≤ 0 ∧ (0 : Int) ≤ 0 :=
  ⟨rfl, by decide, by decide⟩

/-- C6 (amended): `AstraDBUploaderConfig` construction performs no
validation at all: every argument tuple, including non-positive
dimensionalities and batch sizes, is accepted and stored unchanged. -/
theorem uploader_config_no_validation (cn : String) (ed : Int)
    (ns : Option String) (rip : Option Dict) (bs : Int) :
    mkAstraDBUploaderConfig cn ed ns rip bs = Except.ok ⟨cn, ed, ns, rip, bs⟩ := rfl

/-- The collection-creation options computed by
`AstraDBUploader.get_collection`:
`options = \x7b"indexing": requested_indexing_policy\x7d if
requested_indexing_policy else None`.  Python truthiness makes both
`None` and the empty dict falsy. -/
def getCollectionOptions (requested_indexing_policy : Option Dict) : Option Dict :=
  match requested_indexing_policy with
  | none => none
  | some d => if d.isEmpty then none else some [("indexing", JValue.obj d)]

/-- C5 counterexample: an indexing policy was requested (the field is set,
to the empty policy document), yet no indexing option is sent, because
Python truthiness treats the empty dict like `None`. -/
theorem indexing_option_dropped_for_empty_policy :
    getCollectionOptions (some []) = none ∧ (some ([] : Dict)).isSome = true :=
  ⟨rfl, rfl⟩

/-- C5 (amended): the indexing policy is forwarded, as the `indexing`
entry of the creation options, exactly when a non-empty policy document
was requested; when the field is `None` or the empty document, no options
are sent. -/
theorem indexing_option_exactly_for_truthy_policy :
    (∀ d : Dict, d ≠ [] →
        getCollectionOptions (some d) = some [("indexing", JValue.obj d)]) ∧
      getCollectionOptions none = none ∧
      getCollectionOptions (some []) = none := by
  refine ⟨fun d hd => ?_, rfl, rfl⟩
  simp [getCollectionOptions, List.isEmpty_iff, hd]

/-- C5 witness: a concrete non-empty policy document is forwarded as the
`indexing` creation option. -/
theorem indexing_option_witness :
    getCollectionOptions (some [("allow", JValue.arr [JValue.str "f1"])]) =
      some [("indexing", JValue.obj [("allow", JValue.arr [JValue.str "f1"])])] :=
  indexing_option_exactly_for_truthy_policy.1
    [("allow", JValue.arr [JValue.str "f1"])] (List.cons_ne_nil _ _)

/-- A filesystem operation performed by `AstraDBUploadStager.run` when
producing its output.  The source performs exactly
`with open(output_path, "w") as output_file:` (truncating create) followed
by `json.dump(conformed_elements, output_file)` (streaming write); there
is no temporary file and no rename.  File contents are byte sequences,
embedded as `List Char`. -/
inductive FsOp where
  | openTrunc : String → FsOp
  | writeChunk : String → List Char → FsOp

/-- The path an operation acts on. -/
def FsOp.targetPath : FsOp → String
  | .openTrunc p => p
  | .writeChunk p _ => p

/-- The write procedure of `AstraDBUploadStager.run` for a serialized
output `content`: truncating open of the final output path, then the
streamed dump of `content` to it. -/
def stagerWriteOps (output_path : String) (content : List Char) : List FsOp :=
  [FsOp.openTrunc output_path, FsOp.writeChunk output_path content]

/-- The output-file operations of one whole `AstraDBUploadStager.run`
call, keyed by the outcome of the input parse.  In the source,
`json.load(elements_file)` runs before `open(output_path, "w")` is ever
reached: a malformed input raises there and the exception propagates, so
no operation touches the output file.  On a successful parse the
conformed elements are serialized (`json.dump`, abstracted as the
`serialize` argument) and written by `stagerWriteOps`. -/
def stagerRunOps (parseResult : Except String (List Dict)) (output_path : String)
    (serialize : List Dict → List Char) : List FsOp :=
  match parseResult with
  | Except.error _ => []
  | Except.ok elements_contents =>
    stagerWriteOps output_path (serialize (stagerRunElements elements_contents))

/-- Crash semantics: the contents observable at `path` if execution stops
before, during, or after each operation.  `none` means the file does not
exist yet; a streamed write interrupted part-way leaves an arbitrary
prefix of its data appended to the previous contents. -/
def crashStatesAt (path : String) : List FsOp → Option (List Char) → List (Option (List Char))
  | [], st => [st]
  | FsOp.openTrunc p :: rest, st =>
    let st' := if p = path then some [] else st
    st' :: crashStatesAt path rest st'
  | FsOp.writeChunk p data :: rest, st =>
    if p = path then
      ((List.range (data.length + 1)).map (fun i => some (st.getD [] ++ data.take i)))
        ++ crashStatesAt path rest (some (st.getD [] ++ data))
    else
      st :: crashStatesAt path rest st

/-- C7 counterexample: staging output is not written atomically.  For the
serialized output `[]` (the staged empty array), interrupting the run can
leave the truncated content `[` — a strict prefix of the intended file and
not a valid JSON array — at the final output path. -/
theorem stager_write_not_atomic :
    some ['['] ∈ crashStatesAt "out.json"
        (stagerWriteOps "out.json" ['[', ']']) none ∧
      ['['] ≠ ['[', ']'] ∧
      some ([] : List Char) ∈ crashStatesAt "out.json"
        (stagerWriteOps "out.json" ['[', ']']) none := by
  refine ⟨?_, by decide, ?_⟩ <;> simp [crashStatesAt, stagerWriteOps, List.range_succ]

/-- C7 (amended): the stager writes directly to the final output path —
every filesystem operation it performs targets that path, with no
temporary file and no rename — so an interrupted write can leave any
prefix of the serialized output (a truncated file) at the output path;
and when the input parse fails, the run performs no output-file operation
at all (`json.load` raises before the output file is opened), so the only
observable state of the output path is that it does not exist. -/
theorem stager_write_direct (output_path : String) (content : List Char)
    (i : Nat) (h : i ≤ content.length) :
    (∀ op ∈ stagerWriteOps output_path content, op.targetPath = output_path) ∧
      some (content.take i) ∈
        crashStatesAt output_path (stagerWriteOps output_path content) none ∧
      (∀ (e : String) (serialize : List Dict → List Char),
        stagerRunOps (Except.error e) output_path serialize = [] ∧
          crashStatesAt output_path
            (stagerRunOps (Except.error e) output_path serialize) none = [none]) ∧
      (∀ (elements_contents : List Dict) (serialize : List Dict → List Char),
        stagerRunOps (Except.ok elements_contents) output_path serialize =
          stagerWriteOps output_path (serialize (stagerRunElements elements_contents))) := by
  refine ⟨?_, ?_, fun e serialize => ⟨rfl, rfl⟩, fun elements_contents serialize => rfl⟩
  · intro op hop
    simp only [stagerWriteOps, List.mem_cons, List.not_mem_nil, or_false] at hop
    rcases hop with rfl | rfl
    · rfl
    · rfl
  · simp only [stagerWriteOps, crashStatesAt, if_pos rfl, List.mem_cons]
    right
    apply List.mem_append_left
    exact List.mem_map.mpr ⟨i, List.mem_range.mpr (Nat.lt_succ_of_le h), rfl⟩

/-- C7 witness: with serialized output `[]`, the truncated one-character
state `[` is observable at the output path, while a run whose input parse
fails performs no output-file operation. -/
theorem stager_write_direct_witness :
    some (['[', ']'].take 1) ∈ crashStatesAt "out.json"
        (stagerWriteOps "out.json" ['[', ']']) none ∧
      stagerRunOps (Except.error "Expecting value") "out.json"
        (fun _ => ['[', ']']) = [] :=
  ⟨(stager_write_direct "out.json" ['[', ']'] 1 (by decide)).2.1,
   ((stager_write_direct "out.json" ['[', ']'] 1 (by decide)).2.2.1
     "Expecting value" (fun _ => ['[', ']'])).1⟩

/-- One observable step of `AstraDBUploader.run`, in program order: the
parse of one staged file, the record-count log line, the
`get_collection` call (which either returns a handle or raises), and one
`insert_many` call. -/
inductive UploadEvent where
  | readFile : List Dict → UploadEvent
  | log : Nat → String → UploadEvent
  | getCollectionCall : Bool → UploadEvent
  | insertMany : List Dict → UploadEvent

/-- Whether an event is an `insert_many` submission. -/
def UploadEvent.isInsert : UploadEvent → Bool
  | .insertMany _ => true
  | _ => false

/-- The event trace of `AstraDBUploader.run`: it reads every staged file
and concatenates the records, logs the total count and the destination
collection name, then calls `get_collection`; only when that call
succeeds does the batch loop submit the chunks, in order.  When
`get_collection` raises, the exception propagates and the run ends with
no insert. -/
def uploaderRunEvents (contents : List (List Dict)) (collection_name : String)
    (batch_size : Nat) (gcOk : Bool) : List UploadEvent :=
  contents.map UploadEvent.readFile
    ++ [UploadEvent.log contents.flatten.length collection_name,
        UploadEvent.getCollectionCall gcOk]
    ++ (if gcOk then
          (batch_generator contents.flatten batch_size).map UploadEvent.insertMany
        else [])

/-- C9: if collection provisioning fails, the run aborts with no
insert-many call in its trace; and in a successful run the insert-many
events are exactly the batched chunks, so every submission happens with a
provisioned collection handle. -/
theorem no_insert_without_collection (contents : List (List Dict))
    (collection_name : String) (batch_size : Nat) (ev : UploadEvent)
    (hmem : ev ∈ uploaderRunEvents contents collection_name batch_size false) :
    ev.isInsert = false ∧
      (uploaderRunEvents contents collection_name batch_size true).filter
          UploadEvent.isInsert =
        (uploaderInsertCalls contents batch_size).map UploadEvent.insertMany := by
  constructor
  · simp only [uploaderRunEvents, if_neg (Bool.false_ne_true), List.append_nil,
      List.mem_append, List.mem_cons, List.mem_map, List.not_mem_nil,
      or_false] at hmem
    rcases hmem with ⟨f, _, rfl⟩ | rfl | rfl
    · rfl
    · rfl
    · rfl
  · simp only [uploaderRunEvents, if_pos rfl, uploaderInsertCalls,
      List.filter_append]
    rw [List.filter_eq_nil_iff.mpr, List.filter_eq_nil_iff.mpr,
      List.filter_eq_self.mpr]
    · simp
    · intro e he
      rcases List.mem_map.mp he with ⟨c, _, rfl⟩
      simp [UploadEvent.isInsert]
    · intro e he
      simp only [List.mem_cons, List.not_mem_nil, or_false] at he
      rcases he with rfl | rfl
      · simp [UploadEvent.isInsert]
      · simp [UploadEvent.isInsert]
    · intro e he
      rcases List.mem_map.mp he with ⟨f, _, rfl⟩
      simp [UploadEvent.isInsert]

/-- C9 witness: in a run over one single-record staged file whose
`get_collection` call fails, the log event (which is in the trace) is not
an insert, and the successful-run inserts are the batched chunks. -/
theorem no_insert_without_collection_witness :
    (UploadEvent.log 1 "c").isInsert = false ∧
      (uploaderRunEvents [[[("a", JValue.null)]]] "c" 20 true).filter
          UploadEvent.isInsert =
        (uploaderInsertCalls [[[("a", JValue.null)]]] 20).map UploadEvent.insertMany :=
  no_insert_without_collection [[[("a", JValue.null)]]] "c" 20
    (UploadEvent.log 1 "c") (by simp [uploaderRunEvents])
